import Mathlib

/-!
Verification development for the `protoc-gen-go-deal` contract-testing code
generator (file `protoc-gen-go-deal/main.go`).

The generator reads a JSON contract (success / failure cases per service
method) and emits, per schema file, a mock client whose methods dispatch on
the incoming request by structural equality against the contract's resolved
requests, plus a conformance test harness exercising a live server.

The development shallowly embeds the generator: JSON case values become an
inductive `Json` type, the protogen schema model becomes plain structures,
and each generation function of `main.go` becomes a Lean function returning
`Except String` mirroring the Go error flow.  The *semantics* of the emitted
Go `switch` dispatch is embedded as `switchEval` over the ordered case list
the generator writes.  Components of the repository that live outside
`main.go` (the `entities` and `processors` packages) are modelled from the
specification and marked as such in their doc comments.
-/

namespace Deal

/-- Untyped JSON values as decoded from the contract file (`interface\x7b\x7d`
values in the Go code). -/
inductive Json where
  | str (s : String)
  | num (n : Int)
  | boolean (b : Bool)
  | null
  | arr (elems : List Json)
  | obj (fields : List (String × Json))

/-- Kinds of schema fields, a closed set mirroring the spec's value kinds
(scalar, enum, nested message, repeated, map); used by the schema-aware
decode to enforce type conformance. -/
inductive FieldKind where
  | scalarString
  | scalarInt
  | scalarBool
  | enumKind
  | messageKind
  | repeatedKind
  | mapKind
deriving DecidableEq

/-- A schema field descriptor: stable numeric identifier, proto name (used for
JSON keys and error messages) and the generated Go name. -/
structure Field where
  number : Nat
  name : String
  goName : String
  kind : FieldKind
deriving DecidableEq

/-- A schema message type.  `descFields` are the descriptor-level fields used
by the schema-aware decode (`message.Desc` in the Go code); `fields` are the
protogen field wrappers used to build the number-to-Go-name lookup
(`message.Fields`).  In well-formed plugin input the two lists describe the
same fields, but `inputOutputToString` does not assume this and reports a
mismatch error when a populated descriptor field has no lookup entry. -/
structure Message where
  name : String
  goIdent : String
  descFields : List Field
  fields : List Field
deriving DecidableEq

/-- Modelled from the spec: `entities.SuccessCase` (package `entities`, not
under `src/`): description, untyped JSON request and response values. -/
structure SuccessCase where
  description : String
  request : Json
  response : Json

/-- Modelled from the spec: `entities.FailureError` (package `entities`, not
under `src/`): an error spec holding a status-code name and a literal
message. -/
structure FailureError where
  errorCode : String
  message : String
deriving DecidableEq

/-- Modelled from the spec: `entities.FailureCase` (package `entities`, not
under `src/`): description, untyped JSON request value and error spec. -/
structure FailureCase where
  description : String
  request : Json
  error : FailureError

/-- Modelled from the spec: `entities.Method` (package `entities`, not under
`src/`): an ordered sequence of success cases followed by an ordered sequence
of failure cases. -/
structure Method where
  successCases : List SuccessCase
  failureCases : List FailureCase

/-- Modelled from the spec: `entities.Service` (package `entities`, not under
`src/`): a mapping from method name to method contract, embedded as an
association list with unique keys (Go map from a JSON object). -/
abbrev Service := List (String × Method)

/-- Modelled from the spec: `entities.Contract` (package `entities`, not under
`src/`): a name plus a mapping from service name to service contract. -/
structure Contract where
  name : String
  services : List (String × Service)

/-- Look up a service contract by service name (Go map indexing with the
comma-ok form). -/
def lookupService (ss : List (String × Service)) (nm : String) : Option Service :=
  (ss.find? (fun p => p.1 == nm)).map (fun p => p.2)

/-- Look up a method contract by method name (Go map indexing with the
comma-ok form, as in `generateSuccessAndFailureTests`). -/
def lookupMethod (s : Service) (nm : String) : Option Method :=
  (s.find? (fun p => p.1 == nm)).map (fun p => p.2)

/-- Go map indexing without the comma-ok form (as in `generateClient`):
a missing key yields the zero value of `entities.Method`, i.e. empty case
lists. -/
def lookupMethodD (s : Service) (nm : String) : Method :=
  (lookupMethod s nm).getD { successCases := [], failureCases := [] }

/-- A schema method: Go name plus input and output message types
(`protogen.Method`). -/
structure MethodSchema where
  goName : String
  input : Message
  output : Message
deriving DecidableEq

/-- A schema service: Go name plus ordered methods (`protogen.Service`). -/
structure SchemaService where
  goName : String
  methods : List MethodSchema
deriving DecidableEq

/-- A schema file: its services and the driver's generate flag
(`protogen.File`). -/
structure SchemaFile where
  generate : Bool
  services : List SchemaService
deriving DecidableEq

/-- Modelled from the spec: `processors.IsErrorCodeValid` (package
`processors`, not under `src/`) checks a failure case's declared code against
the fixed, closed enumeration of standard RPC status-code names (spec section
on status codes). -/
def validErrorCodes : List String :=
  ["OK", "Canceled", "Unknown", "InvalidArgument", "DeadlineExceeded",
   "NotFound", "AlreadyExists", "PermissionDenied", "ResourceExhausted",
   "FailedPrecondition", "Aborted", "OutOfRange", "Unimplemented",
   "Internal", "Unavailable", "DataLoss", "Unauthenticated"]

/-- Modelled from the spec: membership test in the fixed status-code
enumeration (`processors.IsErrorCodeValid`, not under `src/`). -/
def IsErrorCodeValid (code : String) : Bool :=
  validErrorCodes.contains code

/-- Modelled from the spec: `processors.FormatFieldValue` (package
`processors`, not under `src/`) renders a concrete case value as a Go
literal.  The spec does not constrain the literal text beyond it being a
rendering of the value, and no claim depends on the text of nested
composites, so the model renders scalars and treats nested composites
opaquely. -/
def FormatFieldValue : Json → String
  | .str s => "\x22" ++ s ++ "\x22"
  | .num n => toString n
  | .boolean true => "true"
  | .boolean false => "false"
  | .null => "nil"
  | .arr _ => "nestedListLiteral"
  | .obj _ => "nestedMessageLiteral"

/-- Type-conformance check of the schema-aware decode (`protojson.Unmarshal`
against the message descriptor): the supplied JSON value must fit the
declared field kind. -/
def conforms : FieldKind → Json → Bool
  | .scalarString, .str _ => true
  | .scalarInt, .num _ => true
  | .scalarBool, .boolean _ => true
  | .enumKind, .str _ => true
  | .enumKind, .num _ => true
  | .messageKind, .obj _ => true
  | .messageKind, .null => true
  | .repeatedKind, .arr _ => true
  | .mapKind, .obj _ => true
  | _, _ => false

/-- Decode the members of a JSON object against a message's descriptor
fields: each key must name a known field (unknown fields are rejected),
appear at most once, and carry a kind-conformant value.  Returns the
populated fields, each paired with its descriptor. -/
def decodeFields (message : Message) : List (String × Json) → List Nat →
    Except String (List (Field × Json))
  | [], _ => .ok []
  | (k, v) :: rest, seen =>
    match message.descFields.find? (fun f => f.name == k) with
    | none => .error ("unknown field " ++ k)
    | some f =>
      if seen.contains f.number then
        .error ("duplicate field " ++ k)
      else if conforms f.kind v then
        match decodeFields message rest (f.number :: seen) with
        | .error e => .error e
        | .ok tail => .ok ((f, v) :: tail)
      else
        .error ("invalid value for field " ++ k)

/-- Schema-aware decode of a case value into a dynamic message
(`protojson.Unmarshal` into `dynamicpb.NewMessage(message.Desc)`): the value
must be a JSON object whose members decode against the message's descriptor
fields. -/
def protojsonUnmarshal (data : Json) (message : Message) :
    Except String (List (Field × Json)) :=
  match data with
  | .obj fs => decodeFields message fs []
  | _ => .error ("proto message must be a JSON object for " ++ message.name)

/-- Ordering of populated fields by ascending field number. -/
def fieldLe (a b : Field × Json) : Prop :=
  a.1.number ≤ b.1.number

instance : DecidableRel fieldLe :=
  fun a b => Nat.decLe a.1.number b.1.number

instance : IsTotal (Field × Json) fieldLe :=
  ⟨fun a b => Nat.le_total a.1.number b.1.number⟩

instance : IsTrans (Field × Json) fieldLe :=
  ⟨fun _ _ _ hab hbc => Nat.le_trans hab hbc⟩

/-- Modelled from the spec: the traversal order of `dynamicpb` message
`Range` over populated fields.  The decoder is an external collaborator; the
spec fixes its traversal order at the interface as ascending field
identifier, embedded here as a sort of the populated fields by field
number. -/
def rangeOrder (populated : List (Field × Json)) : List (Field × Json) :=
  List.insertionSort fieldLe populated

/-- The `Range` loop body of `inputOutputToString`: for each populated field,
resolve the protogen field by number in the map built from `message.Fields`;
a missing entry aborts with the field-not-found error naming the descriptor
field and the message; otherwise render `GoName: value`. -/
def rangeFields (message : Message) : List (Field × Json) →
    Except String (List String)
  | [] => .ok []
  | (f, v) :: rest =>
    match message.fields.find? (fun g => g.number == f.number) with
    | none =>
      .error ("field not found " ++ f.name ++ " while inspecting message " ++
        message.name)
    | some g =>
      match rangeFields message rest with
      | .error e => .error e
      | .ok tail => .ok ((g.goName ++ ": " ++ FormatFieldValue v) :: tail)

/-- Embedding of `inputOutputToString`: decode the case value against the
message descriptor, then walk the populated fields in the decoder's traversal
order rendering one `GoName: value` argument per populated field. -/
def inputOutputToString (data : Json) (message : Message) :
    Except String (List String) :=
  match protojsonUnmarshal data message with
  | .error e => .error e
  | .ok populated => rangeFields message (rangeOrder populated)

/-- A resolved message literal: the message's Go identifier together with the
ordered field arguments of its literal construction (the structured form of
the `&Ident\x7bargs\x7d` text built by `getProtoRepresentation`). -/
structure ResolvedMsg where
  typeName : String
  fieldArgs : List String
deriving DecidableEq

/-- Embedding of `getProtoRepresentation`: resolve a case value against a
message type into the literal construction used by both emitters. -/
def getProtoRepresentation (r : Json) (message : Message) :
    Except String ResolvedMsg :=
  match inputOutputToString r message with
  | .error e => .error ("failed to generate message representation: " ++ e)
  | .ok args => .ok { typeName := message.goIdent, fieldArgs := args }

/-- Outcome of a generated mock-client dispatch case: a success case returns a
resolved response literal and no error, a failure case returns no response
and a status error built from the contract's code and literal message. -/
inductive Outcome where
  | success (resp : ResolvedMsg)
  | failure (code : String) (message : String)
deriving DecidableEq

/-- One `case proto.Equal(in, request): outcome` entry of the emitted switch:
the resolved request literal to compare against and the outcome returned on a
match. -/
structure CaseEntry where
  request : ResolvedMsg
  outcome : Outcome
deriving DecidableEq

/-- A Go return value of a generated mock-client method: an optional response
pointer (nil is the zero value) and an optional status error carried as a
(code, message) pair. -/
abbrev GoReturn := Option ResolvedMsg × Option (String × String)

/-- The Go return statement a matched case executes. -/
def outcomeReturn : Outcome → GoReturn
  | .success resp => (some resp, none)
  | .failure code msg => (none, some (code, msg))

/-- The default arm of the emitted switch (`default: return nil, nil`): a
nil (zero-value) response pointer and no error. -/
def defaultReturn : GoReturn := (none, none)

/-- Semantics of the emitted Go `switch` statement: evaluate the case entries
top to bottom, comparing the incoming request against each entry's resolved
request with `proto.Equal` (structural equality of the resolved literals),
executing the first matching entry's return statement; if no case matches,
the default arm returns nil and no error. -/
def switchEval (input : ResolvedMsg) : List CaseEntry → GoReturn
  | [] => defaultReturn
  | e :: rest =>
    if e.request = input then outcomeReturn e.outcome else switchEval input rest

/-- Embedding of `generateSuccessCases`: resolve each success case's request
and response in declared order, producing one switch case per contract case;
the first resolution error aborts. -/
def generateSuccessCases (method : MethodSchema) :
    List SuccessCase → Except String (List CaseEntry)
  | [] => .ok []
  | sc :: rest =>
    match getProtoRepresentation sc.request method.input with
    | .error e => .error e
    | .ok req =>
      match getProtoRepresentation sc.response method.output with
      | .error e => .error e
      | .ok resp =>
        match generateSuccessCases method rest with
        | .error e => .error e
        | .ok tail => .ok ({ request := req, outcome := .success resp } :: tail)

/-- Embedding of `generateFailureCases`: resolve each failure case's request
in declared order, validate its error code against the fixed status-code
enumeration, and produce one switch case per contract case; an unrecognized
code aborts with an error naming it. -/
def generateFailureCases (method : MethodSchema) :
    List FailureCase → Except String (List CaseEntry)
  | [] => .ok []
  | fc :: rest =>
    match getProtoRepresentation fc.request method.input with
    | .error e => .error e
    | .ok req =>
      if IsErrorCodeValid fc.error.errorCode then
        match generateFailureCases method rest with
        | .error e => .error e
        | .ok tail =>
          .ok ({ request := req,
                 outcome := .failure fc.error.errorCode fc.error.message } :: tail)
      else
        .error ("invalid error code: " ++ fc.error.errorCode)

/-- Embedding of `generateClientCases`: the full ordered case list of one
generated mock-client method, success cases first (declared order) then
failure cases (declared order); errors are wrapped with the stage that
produced them, as in the Go code. -/
def generateClientCases (method : MethodSchema) (methodContract : Method) :
    Except String (List CaseEntry) :=
  match generateSuccessCases method methodContract.successCases with
  | .error e => .error ("failed to generate the success cases: " ++ e)
  | .ok se =>
    match generateFailureCases method methodContract.failureCases with
    | .error e => .error ("failed to generate the failure cases: " ++ e)
    | .ok fe => .ok (se ++ fe)

/-- One generated mock-client method: its Go name and the ordered switch case
entries of its body. -/
structure ClientMethod where
  methodName : String
  cases : List CaseEntry
deriving DecidableEq

/-- The per-method loop of `generateClient`: every schema method gets an
implementation; a method absent from the service contract gets the zero-value
contract (empty case lists) and hence only the default arm. -/
def genClientMethods (contractService : Service) :
    List MethodSchema → Except String (List ClientMethod)
  | [] => .ok []
  | m :: rest =>
    match generateClientCases m (lookupMethodD contractService m.goName) with
    | .error e => .error e
    | .ok entries =>
      match genClientMethods contractService rest with
      | .error e => .error e
      | .ok tail => .ok ({ methodName := m.goName, cases := entries } :: tail)

/-- Embedding of `generateClient`: the generated contract client for one
service, one method implementation per schema method. -/
def generateClient (service : SchemaService) (contractService : Service) :
    Except String (List ClientMethod) :=
  genClientMethods contractService service.methods

/-- Modelled from the spec: the expected-error text the harness emitter
writes for a failure case comes from rendering `entities.FailureError`
(package `entities`, not under `src/`); per the spec the harness compares the
returned error's full literal message text against the contract's literal
error message. -/
def renderFailureError (e : FailureError) : String :=
  e.message

/-- One row of the emitted success-case test table. -/
structure SuccessTestRow where
  name : String
  request : ResolvedMsg
  expectedResponse : ResolvedMsg
deriving DecidableEq

/-- One row of the emitted failure-case test table. -/
structure FailureTestRow where
  name : String
  request : ResolvedMsg
  expectedError : String
deriving DecidableEq

/-- Embedding of the table built by `generateSuccessTestForServer`: one row
per success case, in declared order. -/
def generateSuccessTestForServer (method : MethodSchema) :
    List SuccessCase → Except String (List SuccessTestRow)
  | [] => .ok []
  | sc :: rest =>
    match getProtoRepresentation sc.request method.input with
    | .error e => .error e
    | .ok req =>
      match getProtoRepresentation sc.response method.output with
      | .error e => .error e
      | .ok resp =>
        match generateSuccessTestForServer method rest with
        | .error e => .error e
        | .ok tail =>
          .ok ({ name := sc.description, request := req,
                 expectedResponse := resp } :: tail)

/-- Embedding of the table built by `generateFailureTestForServer`: one row
per failure case, in declared order, carrying the expected error text. -/
def generateFailureTestForServer (method : MethodSchema) :
    List FailureCase → Except String (List FailureTestRow)
  | [] => .ok []
  | fc :: rest =>
    match getProtoRepresentation fc.request method.input with
    | .error e => .error e
    | .ok req =>
      match generateFailureTestForServer method rest with
      | .error e => .error e
      | .ok tail =>
        .ok ({ name := fc.description, request := req,
               expectedError := renderFailureError fc.error } :: tail)

/-- Semantics of one emitted failure-case subtest body: given the error text
returned by the live call (none when the call returned no error), the subtest
passes exactly when an error was returned and its full text equals the
expected text; a missing error or any text mismatch fails the subtest. -/
def failureSubtestPasses (errText : Option String) (expectedError : String) :
    Bool :=
  match errText with
  | none => false
  | some msg => msg == expectedError

/-- The per-method subtest emitted by `generateSuccessAndFailureTests`: the
method's name and its success and failure test tables. -/
structure MethodSubtest where
  methodName : String
  successRows : List SuccessTestRow
  failureRows : List FailureTestRow
deriving DecidableEq

/-- The per-method loop of `generateSuccessAndFailureTests`: a method gets a
subtest exactly when the service contract has an entry for it (the comma-ok
map lookup); methods without an entry are skipped. -/
def genMethodSubtests (contractService : Service) :
    List MethodSchema → Except String (List MethodSubtest)
  | [] => .ok []
  | m :: rest =>
    match lookupMethod contractService m.goName with
    | none => genMethodSubtests contractService rest
    | some mc =>
      match generateSuccessTestForServer m mc.successCases with
      | .error e => .error e
      | .ok srows =>
        match generateFailureTestForServer m mc.failureCases with
        | .error e => .error e
        | .ok frows =>
          match genMethodSubtests contractService rest with
          | .error e => .error e
          | .ok tail =>
            .ok ({ methodName := m.goName, successRows := srows,
                   failureRows := frows } :: tail)

/-- Embedding of `generateSuccessAndFailureTests`: the body of the generated
per-service test runner. -/
def generateSuccessAndFailureTests (service : SchemaService)
    (contractService : Service) : Except String (List MethodSubtest) :=
  genMethodSubtests contractService service.methods

/-- Embedding of `generateServerTest`: the transport and client boilerplate
is fixed text; the semantic content of the harness is the per-method subtest
list. -/
def generateServerTest (service : SchemaService) (contractService : Service) :
    Except String (List MethodSubtest) :=
  generateSuccessAndFailureTests service contractService

/-- The per-service artifacts written into one generated unit: the contract
client and the conformance test harness. -/
structure ServiceArtifact where
  serviceName : String
  client : List ClientMethod
  tests : List MethodSubtest
deriving DecidableEq

/-- One emitted source unit (one generated file): the artifacts of every
contracted service of the schema file, in schema order. -/
structure GeneratedUnit where
  services : List ServiceArtifact
deriving DecidableEq

/-- The per-service loop of `generateContracts`: services absent from the
contract are skipped; for a contracted service the client is generated first,
then the server test, either error aborting. -/
def genServices (contract : Contract) :
    List SchemaService → Except String (List ServiceArtifact)
  | [] => .ok []
  | s :: rest =>
    match lookupService contract.services s.goName with
    | none => genServices contract rest
    | some sc =>
      match generateClient s sc with
      | .error e => .error e
      | .ok client =>
        match generateServerTest s sc with
        | .error e => .error e
        | .ok tests =>
          match genServices contract rest with
          | .error e => .error e
          | .ok tail =>
            .ok ({ serviceName := s.goName, client := client,
                   tests := tests } :: tail)

/-- Embedding of `generateContracts`: a schema file with no services yields
no generated unit; otherwise a unit is created (header written) and filled
with the artifacts of the contracted services. -/
def generateContracts (file : SchemaFile) (contract : Contract) :
    Except String (Option GeneratedUnit) :=
  match file.services with
  | [] => .ok none
  | _ =>
    match genServices contract file.services with
    | .error e => .error e
    | .ok arts => .ok (some { services := arts })

/-- The file loop of `main`: files with the generate flag are processed in
order; the first error aborts the whole run, discarding every unit (the
plugin answers with an error response and emits nothing). -/
def runFiles (contract : Contract) :
    List SchemaFile → Except String (List GeneratedUnit)
  | [] => .ok []
  | f :: fs =>
    if f.generate then
      match generateContracts f contract with
      | .error e => .error e
      | .ok none => runFiles contract fs
      | .ok (some u) =>
        match runFiles contract fs with
        | .error e => .error e
        | .ok us => .ok (u :: us)
    else
      runFiles contract fs

/-- The value of the `contract-file` command-line option: the flag is
declared with default value `\x22\x22`, so an absent option yields the empty
string. -/
def contractFileValue (opt : Option String) : String :=
  opt.getD ""

/-- Embedding of the plugin run in `main`: an empty contract-file path is
rejected up front, before any file is processed; otherwise the files are
processed in order, the first error aborting the run with no emission. -/
def runPlugin (contractFilePath : String) (files : List SchemaFile)
    (contract : Contract) : Except String (List GeneratedUnit) :=
  if contractFilePath = "" then
    .error ("\x27contract-file\x27 option not provided")
  else
    runFiles contract files

/-! Concrete inputs used by the witnesses, taken from the end-to-end scenario
of the spec and the repository README: service `MyService` with method
`MyMethod`, input message with a string field `requestField = 1`, output
message with an int64 field `responseField = 1`. -/

/-- Example input message type of `MyMethod`. -/
def requestMessage : Message :=
  { name := "RequestMessage", goIdent := "RequestMessage",
    descFields := [{ number := 1, name := "requestField",
                     goName := "RequestField", kind := .scalarString }],
    fields := [{ number := 1, name := "requestField",
                 goName := "RequestField", kind := .scalarString }] }

/-- Example output message type of `MyMethod`. -/
def responseMessage : Message :=
  { name := "ResponseMessage", goIdent := "ResponseMessage",
    descFields := [{ number := 1, name := "responseField",
                     goName := "ResponseField", kind := .scalarInt }],
    fields := [{ number := 1, name := "responseField",
                 goName := "ResponseField", kind := .scalarInt }] }

/-- Example schema method `MyMethod`. -/
def myMethod : MethodSchema :=
  { goName := "MyMethod", input := requestMessage, output := responseMessage }

/-- Example schema service `MyService`. -/
def myService : SchemaService :=
  { goName := "MyService", methods := [myMethod] }

/-- Example contract success case from the README. -/
def exSuccessCase : SuccessCase :=
  { description := "Should do something",
    request := .obj [("requestField", .str "VALUE")],
    response := .obj [("responseField", .num 42)] }

/-- Example contract failure case from the README. -/
def exFailureCase : FailureCase :=
  { description := "Some description here",
    request := .obj [("requestField", .str "ANOTHER_VALUE")],
    error := { errorCode := "NotFound", message := "ANOTHER_VALUE NotFound" } }

/-- Example method contract with one success and one failure case. -/
def exMethodContract : Method :=
  { successCases := [exSuccessCase], failureCases := [exFailureCase] }

/-- The switch entry compiled from the example success case. -/
def exSuccessEntry : CaseEntry :=
  { request := { typeName := "RequestMessage",
                 fieldArgs := ["RequestField: \x22VALUE\x22"] },
    outcome := .success { typeName := "ResponseMessage",
                          fieldArgs := ["ResponseField: 42"] } }

/-- The switch entry compiled from the example failure case. -/
def exFailureEntry : CaseEntry :=
  { request := { typeName := "RequestMessage",
                 fieldArgs := ["RequestField: \x22ANOTHER_VALUE\x22"] },
    outcome := .failure "NotFound" "ANOTHER_VALUE NotFound" }

/-- The full compiled case list of the example method contract. -/
def exEntries : List CaseEntry := [exSuccessEntry, exFailureEntry]

/-- An incoming request matching no case of the example contract. -/
def exOtherReq : ResolvedMsg :=
  { typeName := "RequestMessage", fieldArgs := ["RequestField: \x22OTHER\x22"] }

/-! Helper lemmas about the emitted switch semantics and the case
compilers. -/

/-- If entry `i` matches the input and no earlier entry does, the emitted
switch executes entry `i`'s return statement. -/
theorem switchEval_of_first_match (input : ResolvedMsg)
    (entries : List CaseEntry) :
    ∀ (i : Nat) (hi : i < entries.length),
      (entries.get ⟨i, hi⟩).request = input →
      (∀ e ∈ entries.take i, e.request ≠ input) →
      switchEval input entries = outcomeReturn (entries.get ⟨i, hi⟩).outcome := by
  induction entries with
  | nil => intro i hi; exact absurd hi (by simp)
  | cons e rest ih =>
    intro i hi hmatch hpre
    match i with
    | 0 =>
      simp only [List.get] at hmatch
      simp [switchEval, hmatch]
    | Nat.succ n =>
      have hne : e.request ≠ input := hpre e (by simp)
      simp only [switchEval]
      rw [if_neg hne]
      exact ih n (by simpa using hi) hmatch
        (fun x hx => hpre x (by simp [hx]))

/-- Any matching entry is preceded (weakly) by a first matching entry. -/
theorem exists_first_match (input : ResolvedMsg) (entries : List CaseEntry) :
    ∀ (i : Nat) (hi : i < entries.length),
      (entries.get ⟨i, hi⟩).request = input →
      ∃ k, ∃ (hk : k < entries.length), k ≤ i ∧
        (entries.get ⟨k, hk⟩).request = input ∧
        ∀ e ∈ entries.take k, e.request ≠ input := by
  induction entries with
  | nil => intro i hi; exact absurd hi (by simp)
  | cons e rest ih =>
    intro i hi hmatch
    by_cases he : e.request = input
    · exact ⟨0, by simp, Nat.zero_le _, he, by simp⟩
    · match i with
      | 0 => exact absurd hmatch he
      | Nat.succ n =>
        obtain ⟨k, hk, hki, hkm, hkpre⟩ := ih n (by simpa using hi) hmatch
        refine ⟨k + 1, by simpa using hk, Nat.succ_le_succ hki, hkm, ?_⟩
        intro x hx
        simp only [List.take_succ_cons, List.mem_cons] at hx
        rcases hx with rfl | hx
        · exact he
        · exact hkpre x hx

/-- A switch none of whose entries match falls through to the default arm. -/
theorem switchEval_no_match (input : ResolvedMsg) (entries : List CaseEntry)
    (h : ∀ e ∈ entries, e.request ≠ input) :
    switchEval input entries = defaultReturn := by
  induction entries with
  | nil => rfl
  | cons e rest ih =>
    simp only [switchEval]
    rw [if_neg (h e (by simp))]
    exact ih (fun x hx => h x (by simp [hx]))

/-- The success-case compiler emits one entry per contract case, in declared
order, pairing each case's resolved request with its resolved response. -/
theorem generateSuccessCases_spec (method : MethodSchema)
    (cases : List SuccessCase) (entries : List CaseEntry)
    (h : generateSuccessCases method cases = .ok entries) :
    List.Forall₂ (fun (sc : SuccessCase) (e : CaseEntry) =>
      ∃ req resp,
        getProtoRepresentation sc.request method.input = .ok req ∧
        getProtoRepresentation sc.response method.output = .ok resp ∧
        e = { request := req, outcome := .success resp }) cases entries := by
  induction cases generalizing entries with
  | nil =>
    simp only [generateSuccessCases, Except.ok.injEq] at h
    rw [← h]
    exact List.Forall₂.nil
  | cons sc rest ih =>
    simp only [generateSuccessCases] at h
    cases hreq : getProtoRepresentation sc.request method.input with
    | error e => rw [hreq] at h; exact absurd h (by simp)
    | ok req =>
      rw [hreq] at h
      cases hresp : getProtoRepresentation sc.response method.output with
      | error e => rw [hresp] at h; exact absurd h (by simp)
      | ok resp =>
        rw [hresp] at h
        cases htail : generateSuccessCases method rest with
        | error e => rw [htail] at h; exact absurd h (by simp)
        | ok tail =>
          rw [htail] at h
          simp only [Except.ok.injEq] at h
          rw [← h]
          exact List.Forall₂.cons ⟨req, resp, hreq, hresp, rfl⟩ (ih tail htail)

/-- The failure-case compiler emits one entry per contract case, in declared
order, pairing each case's resolved request with its canned status error. -/
theorem generateFailureCases_spec (method : MethodSchema)
    (cases : List FailureCase) (entries : List CaseEntry)
    (h : generateFailureCases method cases = .ok entries) :
    List.Forall₂ (fun (fc : FailureCase) (e : CaseEntry) =>
      ∃ req,
        getProtoRepresentation fc.request method.input = .ok req ∧
        IsErrorCodeValid fc.error.errorCode = true ∧
        e = { request := req,
              outcome := .failure fc.error.errorCode fc.error.message })
      cases entries := by
  induction cases generalizing entries with
  | nil =>
    simp only [generateFailureCases, Except.ok.injEq] at h
    rw [← h]
    exact List.Forall₂.nil
  | cons fc rest ih =>
    simp only [generateFailureCases] at h
    cases hreq : getProtoRepresentation fc.request method.input with
    | error e => rw [hreq] at h; exact absurd h (by simp)
    | ok req =>
      rw [hreq] at h
      cases hvalid : IsErrorCodeValid fc.error.errorCode with
      | false => rw [hvalid] at h; exact absurd h (by simp)
      | true =>
        rw [hvalid] at h
        simp only [if_true] at h
        cases htail : generateFailureCases method rest with
        | error e => rw [htail] at h; exact absurd h (by simp)
        | ok tail =>
          rw [htail] at h
          simp only [Except.ok.injEq] at h
          rw [← h]
          exact List.Forall₂.cons ⟨req, hreq, hvalid, rfl⟩ (ih tail htail)

/-- The client case compiler concatenates the compiled success cases and the
compiled failure cases, in that order. -/
theorem generateClientCases_split (method : MethodSchema) (mc : Method)
    (entries : List CaseEntry)
    (h : generateClientCases method mc = .ok entries) :
    ∃ se fe,
      generateSuccessCases method mc.successCases = .ok se ∧
      generateFailureCases method mc.failureCases = .ok fe ∧
      entries = se ++ fe := by
  simp only [generateClientCases] at h
  cases hs : generateSuccessCases method mc.successCases with
  | error e => rw [hs] at h; exact absurd h (by simp)
  | ok se =>
    rw [hs] at h
    cases hf : generateFailureCases method mc.failureCases with
    | error e => rw [hf] at h; exact absurd h (by simp)
    | ok fe =>
      rw [hf] at h
      simp only [Except.ok.injEq] at h
      exact ⟨se, fe, rfl, rfl, h.symm⟩

/-- Claim C1: for every method contract the generated mock-client method
evaluates its cases in declared order — all success cases first (in declared
order), then all failure cases (in declared order) — comparing the incoming
request against each case's resolved request with structural (deep)
equality; it returns the outcome of the first matching case, so when two
cases have equal resolved requests only the earliest-declared matching
case's outcome is ever returned. -/
theorem claimC1_mock_dispatch (method : MethodSchema) (mc : Method)
    (entries : List CaseEntry)
    (hgen : generateClientCases method mc = .ok entries) :
    (∃ se fe,
      generateSuccessCases method mc.successCases = .ok se ∧
      generateFailureCases method mc.failureCases = .ok fe ∧
      entries = se ++ fe ∧
      List.Forall₂ (fun (sc : SuccessCase) (e : CaseEntry) =>
        ∃ req resp,
          getProtoRepresentation sc.request method.input = .ok req ∧
          getProtoRepresentation sc.response method.output = .ok resp ∧
          e = { request := req, outcome := .success resp }) mc.successCases se ∧
      List.Forall₂ (fun (fc : FailureCase) (e : CaseEntry) =>
        ∃ req,
          getProtoRepresentation fc.request method.input = .ok req ∧
          IsErrorCodeValid fc.error.errorCode = true ∧
          e = { request := req,
                outcome := .failure fc.error.errorCode fc.error.message })
        mc.failureCases fe) ∧
    (∀ (input : ResolvedMsg) (i : Nat) (hi : i < entries.length),
      (entries.get ⟨i, hi⟩).request = input →
      (∀ e ∈ entries.take i, e.request ≠ input) →
      switchEval input entries = outcomeReturn (entries.get ⟨i, hi⟩).outcome) ∧
    (∀ (i j : Nat) (hi : i < entries.length) (hj : j < entries.length),
      i < j →
      (entries.get ⟨i, hi⟩).request = (entries.get ⟨j, hj⟩).request →
      ∃ k, ∃ (hk : k < entries.length), k ≤ i ∧
        (entries.get ⟨k, hk⟩).request = (entries.get ⟨j, hj⟩).request ∧
        switchEval ((entries.get ⟨j, hj⟩).request) entries =
          outcomeReturn (entries.get ⟨k, hk⟩).outcome) := by
  obtain ⟨se, fe, hs, hf, hsplit⟩ := generateClientCases_split method mc entries hgen
  refine ⟨⟨se, fe, hs, hf, hsplit, generateSuccessCases_spec _ _ _ hs,
    generateFailureCases_spec _ _ _ hf⟩, ?_, ?_⟩
  · intro input i hi hmatch hpre
    exact switchEval_of_first_match input entries i hi hmatch hpre
  · intro i j hi hj _ hreq
    obtain ⟨k, hk, hki, hkm, hkpre⟩ :=
      exists_first_match ((entries.get ⟨j, hj⟩).request) entries i hi hreq
    exact ⟨k, hk, hki, hkm,
      switchEval_of_first_match _ entries k hk hkm hkpre⟩

/-- Witness for claim C1 at the README contract: compiling `MyMethod`'s
contract yields the success entry followed by the failure entry, and a
request equal to the failure case's resolved request executes the failure
return statement. -/
theorem claimC1_mock_dispatch_witness :
    generateClientCases myMethod exMethodContract = .ok exEntries ∧
    switchEval exFailureEntry.request exEntries =
      (none, some ("NotFound", "ANOTHER_VALUE NotFound")) := by
  have h := (claimC1_mock_dispatch myMethod exMethodContract exEntries rfl).2.1
  exact ⟨rfl, h exFailureEntry.request 1 (by decide) (by decide) (by decide)⟩

/-- Claim C2: a mock-client call whose request matches no case's resolved
request falls through to the default arm and returns the zero-value (nil)
response pointer and no error. -/
theorem claimC2_default_outcome (method : MethodSchema) (mc : Method)
    (entries : List CaseEntry)
    (_hgen : generateClientCases method mc = .ok entries)
    (input : ResolvedMsg)
    (hnomatch : ∀ e ∈ entries, e.request ≠ input) :
    switchEval input entries = defaultReturn ∧
    defaultReturn =
      ((none : Option ResolvedMsg), (none : Option (String × String))) :=
  ⟨switchEval_no_match input entries hnomatch, rfl⟩

/-- Witness for claim C2 at the README contract: a request with
`requestField = OTHER` matches neither case and gets the nil, nil
default. -/
theorem claimC2_default_outcome_witness :
    switchEval exOtherReq exEntries = defaultReturn ∧
    defaultReturn =
      ((none : Option ResolvedMsg), (none : Option (String × String))) :=
  claimC2_default_outcome myMethod exMethodContract exEntries rfl exOtherReq
    (by decide)

/-- Claim C3: for every failure case the emitted conformance subtest carries
the contract's literal error message as its expected text, and the subtest
passes exactly when the call returned an error whose full literal text
equals it — the absence of an error, or any mismatch of the literal text,
fails that subtest. -/
theorem claimC3_failure_subtest_text (method : MethodSchema)
    (cases : List FailureCase) (rows : List FailureTestRow)
    (h : generateFailureTestForServer method cases = .ok rows) :
    List.Forall₂ (fun (fc : FailureCase) (r : FailureTestRow) =>
      ∃ req,
        getProtoRepresentation fc.request method.input = .ok req ∧
        r = { name := fc.description, request := req,
              expectedError := fc.error.message } ∧
        ∀ errText : Option String,
          failureSubtestPasses errText r.expectedError = true ↔
            errText = some fc.error.message) cases rows := by
  induction cases generalizing rows with
  | nil =>
    simp only [generateFailureTestForServer, Except.ok.injEq] at h
    rw [← h]
    exact List.Forall₂.nil
  | cons fc rest ih =>
    simp only [generateFailureTestForServer] at h
    cases hreq : getProtoRepresentation fc.request method.input with
    | error e => rw [hreq] at h; exact absurd h (by simp)
    | ok req =>
      rw [hreq] at h
      cases htail : generateFailureTestForServer method rest with
      | error e => rw [htail] at h; exact absurd h (by simp)
      | ok tail =>
        rw [htail] at h
        simp only [Except.ok.injEq] at h
        rw [← h]
        refine List.Forall₂.cons ⟨req, hreq, rfl, ?_⟩ (ih tail htail)
        intro errText
        cases errText with
        | none => simp [failureSubtestPasses]
        | some msg => simp [failureSubtestPasses, renderFailureError]

/-- The test-table row emitted for the README failure case. -/
def exFailureRow : FailureTestRow :=
  { name := "Some description here",
    request := { typeName := "RequestMessage",
                 fieldArgs := ["RequestField: \x22ANOTHER_VALUE\x22"] },
    expectedError := "ANOTHER_VALUE NotFound" }

/-- Witness for claim C3 at the README failure case: the emitted row expects
exactly the contract's literal message and its subtest passes only on that
exact error text. -/
theorem claimC3_failure_subtest_text_witness :
    List.Forall₂ (fun (fc : FailureCase) (r : FailureTestRow) =>
      ∃ req,
        getProtoRepresentation fc.request myMethod.input = .ok req ∧
        r = { name := fc.description, request := req,
              expectedError := fc.error.message } ∧
        ∀ errText : Option String,
          failureSubtestPasses errText r.expectedError = true ↔
            errText = some fc.error.message) [exFailureCase] [exFailureRow] :=
  claimC3_failure_subtest_text myMethod [exFailureCase] [exFailureRow] rfl

/-- The artifact names produced by the per-service generation loop are
exactly the names of the schema services that appear in the contract, in
schema order. -/
theorem genServices_names (contract : Contract) (ss : List SchemaService)
    (arts : List ServiceArtifact) (h : genServices contract ss = .ok arts) :
    arts.map (fun a => a.serviceName) =
      (ss.filter
        (fun s => (lookupService contract.services s.goName).isSome)).map
        (fun s => s.goName) := by
  induction ss generalizing arts with
  | nil =>
    simp only [genServices, Except.ok.injEq] at h
    rw [← h]
    simp
  | cons s rest ih =>
    simp only [genServices] at h
    cases hls : lookupService contract.services s.goName with
    | none =>
      rw [hls] at h
      rw [ih arts h]
      simp [List.filter_cons, hls]
    | some sc =>
      simp only [hls] at h
      cases hc : generateClient s sc with
      | error e => rw [hc] at h; exact absurd h (by simp)
      | ok client =>
        rw [hc] at h
        cases ht : generateServerTest s sc with
        | error e => rw [ht] at h; exact absurd h (by simp)
        | ok tests =>
          rw [ht] at h
          cases htail : genServices contract rest with
          | error e => rw [htail] at h; exact absurd h (by simp)
          | ok tail =>
            rw [htail] at h
            simp only [Except.ok.injEq] at h
            rw [← h]
            simp only [List.map_cons, List.filter_cons, hls, Option.isSome_some,
              if_true]
            exact congrArg (s.goName :: ·) (ih tail htail)

/-- Claim C4 (amended): a generated source unit is emitted for a schema file
iff the file contains at least one service, whether or not any of its
services appears in the contract; within the emitted unit, artifacts are
generated exactly for the services that appear in the contract, so a file
whose services are all uncontracted still yields a unit (header only). -/
theorem claimC4_unit_emission (file : SchemaFile) (contract : Contract)
    (r : Option GeneratedUnit)
    (h : generateContracts file contract = .ok r) :
    (r.isSome ↔ file.services ≠ []) ∧
    (∀ u, r = some u →
      u.services.map (fun a => a.serviceName) =
        (file.services.filter
          (fun s => (lookupService contract.services s.goName).isSome)).map
          (fun s => s.goName)) := by
  cases hsrv : file.services with
  | nil =>
    simp only [generateContracts, hsrv, Except.ok.injEq] at h
    rw [← h]
    exact ⟨by simp [hsrv], by intro u hu; exact absurd hu (by simp)⟩
  | cons s rest =>
    simp only [generateContracts, hsrv] at h
    cases hg : genServices contract (s :: rest) with
    | error e => rw [hg] at h; exact absurd h (by simp)
    | ok arts =>
      rw [hg] at h
      simp only [Except.ok.injEq] at h
      rw [← h]
      refine ⟨by simp [hsrv], ?_⟩
      intro u hu
      simp only [Option.some.injEq] at hu
      rw [← hu]
      exact genServices_names contract (s :: rest) arts hg

/-- A schema file whose single service is absent from the contract. -/
def exUncontractedFile : SchemaFile :=
  { generate := true, services := [myService] }

/-- A contract naming no services at all. -/
def exEmptyContract : Contract :=
  { name := "Some Name Here", services := [] }

/-- Counterexample to claim C4 as stated: a schema file whose only service
does not appear in the contract still gets a generated unit (the file is
created and the header written before services are filtered), where the
claim says no artifact is emitted for it. -/
theorem claimC4_counterexample :
    exUncontractedFile.services ≠ [] ∧
    (∀ s ∈ exUncontractedFile.services,
      lookupService exEmptyContract.services s.goName = none) ∧
    generateContracts exUncontractedFile exEmptyContract =
      .ok (some { services := [] }) := by
  refine ⟨by decide, ?_, rfl⟩
  intro s hs
  have : s = myService := by
    simpa [exUncontractedFile] using hs
  rw [this]
  rfl

/-- The full contract of the README (service `MyService`, method
`MyMethod`). -/
def exContract : Contract :=
  { name := "Some Name Here",
    services := [("MyService", [("MyMethod", exMethodContract)])] }

/-- A schema file holding the example service. -/
def exFile : SchemaFile := { generate := true, services := [myService] }

/-- The mock-client artifact generated for the example service. -/
def exClient : List ClientMethod :=
  [{ methodName := "MyMethod", cases := exEntries }]

/-- The success test-table row emitted for the README success case. -/
def exSuccessRow : SuccessTestRow :=
  { name := "Should do something",
    request := { typeName := "RequestMessage",
                 fieldArgs := ["RequestField: \x22VALUE\x22"] },
    expectedResponse := { typeName := "ResponseMessage",
                          fieldArgs := ["ResponseField: 42"] } }

/-- The harness subtest emitted for the example method. -/
def exSubtest : MethodSubtest :=
  { methodName := "MyMethod", successRows := [exSuccessRow],
    failureRows := [exFailureRow] }

/-- The generated unit for the example schema file and contract. -/
def exUnit : GeneratedUnit :=
  { services := [{ serviceName := "MyService", client := exClient,
                   tests := [exSubtest] }] }

/-- Witness for claim C4 (amended) at the README schema and contract. -/
theorem claimC4_unit_emission_witness :
    ((some exUnit : Option GeneratedUnit).isSome ↔ exFile.services ≠ []) ∧
    (∀ u, (some exUnit : Option GeneratedUnit) = some u →
      u.services.map (fun a => a.serviceName) =
        (exFile.services.filter
          (fun s => (lookupService exContract.services s.goName).isSome)).map
          (fun s => s.goName)) :=
  claimC4_unit_emission exFile exContract (some exUnit) rfl

/-- The subtest names produced by the per-method harness loop are exactly
the names of the schema methods that have an entry in the service contract,
in schema order. -/
theorem genMethodSubtests_names (contractService : Service)
    (ms : List MethodSchema) (subtests : List MethodSubtest)
    (h : genMethodSubtests contractService ms = .ok subtests) :
    subtests.map (fun t => t.methodName) =
      (ms.filter
        (fun m => (lookupMethod contractService m.goName).isSome)).map
        (fun m => m.goName) := by
  induction ms generalizing subtests with
  | nil =>
    simp only [genMethodSubtests, Except.ok.injEq] at h
    rw [← h]
    simp
  | cons m rest ih =>
    simp only [genMethodSubtests] at h
    cases hlm : lookupMethod contractService m.goName with
    | none =>
      rw [hlm] at h
      rw [ih subtests h]
      simp [List.filter_cons, hlm]
    | some mc =>
      simp only [hlm] at h
      cases hs : generateSuccessTestForServer m mc.successCases with
      | error e => rw [hs] at h; exact absurd h (by simp)
      | ok srows =>
        rw [hs] at h
        cases hf : generateFailureTestForServer m mc.failureCases with
        | error e => rw [hf] at h; exact absurd h (by simp)
        | ok frows =>
          rw [hf] at h
          cases htail : genMethodSubtests contractService rest with
          | error e => rw [htail] at h; exact absurd h (by simp)
          | ok tail =>
            rw [htail] at h
            simp only [Except.ok.injEq] at h
            rw [← h]
            simp only [List.map_cons, List.filter_cons, hlm,
              Option.isSome_some, if_true]
            exact congrArg (m.goName :: ·) (ih tail htail)

/-- Claim C8 (amended): the emitted conformance harness contains a
per-method subtest exactly for the methods that have an entry in the
service contract — including an entry that declares zero cases; a method
with no contract entry gets no subtest. -/
theorem claimC8_subtests_per_contracted_method (service : SchemaService)
    (contractService : Service) (subtests : List MethodSubtest)
    (h : generateSuccessAndFailureTests service contractService =
      .ok subtests) :
    subtests.map (fun t => t.methodName) =
      (service.methods.filter
        (fun m => (lookupMethod contractService m.goName).isSome)).map
        (fun m => m.goName) :=
  genMethodSubtests_names contractService service.methods subtests h

/-- A service contract whose single method entry declares no cases. -/
def exEmptyCaseService : Service :=
  [("MyMethod", { successCases := [], failureCases := [] })]

/-- Counterexample to claim C8 as stated: a method whose contract entry
declares zero success and zero failure cases still gets a subtest (the
generator only checks that the map entry exists), where the claim says a
method with no declared case gets no subtest. -/
theorem claimC8_counterexample :
    (∃ mc, lookupMethod exEmptyCaseService "MyMethod" = some mc ∧
      mc.successCases = [] ∧ mc.failureCases = []) ∧
    generateSuccessAndFailureTests myService exEmptyCaseService =
      .ok [{ methodName := "MyMethod", successRows := [],
             failureRows := [] }] :=
  ⟨⟨{ successCases := [], failureCases := [] }, rfl, rfl, rfl⟩, rfl⟩

/-- Witness for claim C8 (amended) at the README schema and contract. -/
theorem claimC8_subtests_per_contracted_method_witness :
    ([exSubtest] : List MethodSubtest).map (fun t => t.methodName) =
      (myService.methods.filter
        (fun m =>
          (lookupMethod [("MyMethod", exMethodContract)] m.goName).isSome)).map
        (fun m => m.goName) :=
  claimC8_subtests_per_contracted_method myService
    [("MyMethod", exMethodContract)] [exSubtest] rfl

/-- The zero-value method contract compiles to an empty case list. -/
theorem generateClientCases_default (m : MethodSchema) :
    generateClientCases m { successCases := [], failureCases := [] } =
      .ok [] := rfl

/-- The per-method client loop pairs each schema method, in order, with a
generated implementation named after it whose cases come from compiling its
(possibly zero-value) method contract. -/
theorem genClientMethods_spec (contractService : Service)
    (ms : List MethodSchema) (client : List ClientMethod)
    (h : genClientMethods contractService ms = .ok client) :
    List.Forall₂ (fun (m : MethodSchema) (cm : ClientMethod) =>
      cm.methodName = m.goName ∧
      generateClientCases m (lookupMethodD contractService m.goName) =
        .ok cm.cases) ms client := by
  induction ms generalizing client with
  | nil =>
    simp only [genClientMethods, Except.ok.injEq] at h
    rw [← h]
    exact List.Forall₂.nil
  | cons m rest ih =>
    simp only [genClientMethods] at h
    cases hg : generateClientCases m (lookupMethodD contractService m.goName) with
    | error e => rw [hg] at h; exact absurd h (by simp)
    | ok entries =>
      rw [hg] at h
      cases htail : genClientMethods contractService rest with
      | error e => rw [htail] at h; exact absurd h (by simp)
      | ok tail =>
        rw [htail] at h
        simp only [Except.ok.injEq] at h
        rw [← h]
        exact List.Forall₂.cons ⟨rfl, hg⟩ (ih tail htail)

/-- Claim C9: for a contracted service the generated mock client implements
every method of the service's schema, in schema order; a method that has no
method contract gets the zero-value contract, compiles to an empty case
list, and so answers every call with the trivial fallback (default)
return. -/
theorem claimC9_client_implements_all (service : SchemaService)
    (contractService : Service) (client : List ClientMethod)
    (h : generateClient service contractService = .ok client) :
    client.map (fun cm => cm.methodName) =
      service.methods.map (fun m => m.goName) ∧
    List.Forall₂ (fun (m : MethodSchema) (cm : ClientMethod) =>
      cm.methodName = m.goName ∧
      generateClientCases m (lookupMethodD contractService m.goName) =
        .ok cm.cases ∧
      (lookupMethod contractService m.goName = none →
        cm.cases = [] ∧
        ∀ input, switchEval input cm.cases = defaultReturn))
      service.methods client := by
  have hf := genClientMethods_spec contractService service.methods client h
  constructor
  · have hml : ∀ {ms : List MethodSchema} {cl : List ClientMethod},
        List.Forall₂ (fun (m : MethodSchema) (cm : ClientMethod) =>
          cm.methodName = m.goName ∧
          generateClientCases m (lookupMethodD contractService m.goName) =
            .ok cm.cases) ms cl →
        cl.map (fun cm => cm.methodName) = ms.map (fun m => m.goName) := by
      intro ms cl hf2
      induction hf2 with
      | nil => rfl
      | cons h₁ _ ih =>
        simp only [List.map_cons, ih]
        rw [h₁.1]
    exact hml hf
  · refine List.Forall₂.imp ?_ hf
    intro m cm hm
    obtain ⟨hname, hgen⟩ := hm
    refine ⟨hname, hgen, ?_⟩
    intro hnone
    have hd : lookupMethodD contractService m.goName =
        { successCases := [], failureCases := [] } := by
      simp [lookupMethodD, hnone]
    rw [hd, generateClientCases_default] at hgen
    have hcases : cm.cases = [] := by
      simpa using hgen.symm
    exact ⟨hcases, fun input => by rw [hcases]; rfl⟩

/-- Witness for claim C9: generating the client for `MyService` against an
empty service contract yields an implementation of `MyMethod` with no cases,
answering every call with the default return. -/
theorem claimC9_client_implements_all_witness :
    ([{ methodName := "MyMethod", cases := [] }] : List ClientMethod).map
      (fun cm => cm.methodName) =
      myService.methods.map (fun m => m.goName) ∧
    List.Forall₂ (fun (m : MethodSchema) (cm : ClientMethod) =>
      cm.methodName = m.goName ∧
      generateClientCases m (lookupMethodD [] m.goName) = .ok cm.cases ∧
      (lookupMethod [] m.goName = none →
        cm.cases = [] ∧
        ∀ input, switchEval input cm.cases = defaultReturn))
      myService.methods [{ methodName := "MyMethod", cases := [] }] :=
  claimC9_client_implements_all myService [] [{ methodName := "MyMethod", cases := [] }] rfl

/-- The rendered argument list of the `Range` loop matches the traversed
populated fields index by index: one rendered argument per populated field,
each using the Go name of the field resolved by number. -/
theorem rangeFields_spec (message : Message) (l : List (Field × Json))
    (args : List String) (h : rangeFields message l = .ok args) :
    args.length = l.length ∧
    ∀ i (hi : i < l.length) (ha : i < args.length),
      ∃ g, message.fields.find?
          (fun x => x.number == (l.get ⟨i, hi⟩).1.number) = some g ∧
        args.get ⟨i, ha⟩ =
          g.goName ++ ": " ++ FormatFieldValue (l.get ⟨i, hi⟩).2 := by
  induction l generalizing args with
  | nil =>
    simp only [rangeFields, Except.ok.injEq] at h
    rw [← h]
    exact ⟨rfl, fun i hi => absurd hi (by simp)⟩
  | cons p rest ih =>
    obtain ⟨f, v⟩ := p
    simp only [rangeFields] at h
    cases hfind : message.fields.find? (fun g => g.number == f.number) with
    | none => rw [hfind] at h; exact absurd h (by simp)
    | some g =>
      simp only [hfind] at h
      cases htail : rangeFields message rest with
      | error e => rw [htail] at h; exact absurd h (by simp)
      | ok tail =>
        rw [htail] at h
        simp only [Except.ok.injEq] at h
        rw [← h]
        obtain ⟨hlen, hidx⟩ := ih tail htail
        refine ⟨by simp [hlen], ?_⟩
        intro i hi ha
        match i with
        | 0 => exact ⟨g, hfind, rfl⟩
        | Nat.succ n =>
          exact hidx n (by simpa using hi) (by simpa using ha)

/-- Claim C5: for every case value, the resolver traverses the decoded
value's populated fields in ascending field-identifier order (the decoder's
traversal order), and this is exactly the order in which the emitters render
the literal message construction's arguments — one argument per populated
field, resolved by field number — while unpopulated fields are omitted from
the construction. -/
theorem claimC5_traversal_order (data : Json) (message : Message)
    (args : List String) (h : inputOutputToString data message = .ok args) :
    ∃ populated, protojsonUnmarshal data message = .ok populated ∧
      List.Sorted fieldLe (rangeOrder populated) ∧
      (rangeOrder populated).Perm populated ∧
      args.length = (rangeOrder populated).length ∧
      ∀ i (hi : i < (rangeOrder populated).length) (ha : i < args.length),
        ∃ g, message.fields.find?
            (fun x =>
              x.number == ((rangeOrder populated).get ⟨i, hi⟩).1.number) =
            some g ∧
          args.get ⟨i, ha⟩ =
            g.goName ++ ": " ++
              FormatFieldValue ((rangeOrder populated).get ⟨i, hi⟩).2 := by
  simp only [inputOutputToString] at h
  cases hdec : protojsonUnmarshal data message with
  | error e => rw [hdec] at h; exact absurd h (by simp)
  | ok populated =>
    rw [hdec] at h
    obtain ⟨hlen, hidx⟩ := rangeFields_spec message (rangeOrder populated) args h
    exact ⟨populated, rfl, List.sorted_insertionSort fieldLe populated,
      List.perm_insertionSort fieldLe populated, hlen, hidx⟩

/-- A message with two fields declared in descending number order, so the
decoder's traversal order differs from the JSON member order. -/
def twoFieldMessage : Message :=
  { name := "TwoFields", goIdent := "TwoFields",
    descFields := [{ number := 2, name := "beta", goName := "Beta",
                     kind := .scalarInt },
                   { number := 1, name := "alpha", goName := "Alpha",
                     kind := .scalarString }],
    fields := [{ number := 2, name := "beta", goName := "Beta",
                 kind := .scalarInt },
               { number := 1, name := "alpha", goName := "Alpha",
                 kind := .scalarString }] }

/-- A case value populating both fields of `twoFieldMessage`, beta first. -/
def twoFieldData : Json := .obj [("beta", .num 7), ("alpha", .str "x")]

/-- Witness for claim C5: resolving `twoFieldData` renders the populated
fields in ascending field-number order (`Alpha` before `Beta`) even though
the JSON lists beta first. -/
theorem claimC5_traversal_order_witness :
    ∃ populated, protojsonUnmarshal twoFieldData twoFieldMessage =
        .ok populated ∧
      List.Sorted fieldLe (rangeOrder populated) ∧
      (rangeOrder populated).Perm populated ∧
      (["Alpha: \x22x\x22", "Beta: 7"] : List String).length =
        (rangeOrder populated).length ∧
      ∀ i (hi : i < (rangeOrder populated).length)
        (ha : i < (["Alpha: \x22x\x22", "Beta: 7"] : List String).length),
        ∃ g, twoFieldMessage.fields.find?
            (fun x =>
              x.number == ((rangeOrder populated).get ⟨i, hi⟩).1.number) =
            some g ∧
          (["Alpha: \x22x\x22", "Beta: 7"] : List String).get ⟨i, ha⟩ =
            g.goName ++ ": " ++
              FormatFieldValue ((rangeOrder populated).get ⟨i, hi⟩).2 :=
  claimC5_traversal_order twoFieldData twoFieldMessage
    ["Alpha: \x22x\x22", "Beta: 7"] rfl

/-- A populated field whose number has no entry in the protogen field map
makes the `Range` loop abort with the field-not-found error, provided every
earlier traversed field resolves. -/
theorem rangeFields_error_of_missing (message : Message) :
    ∀ (pre : List (Field × Json)) (f : Field) (v : Json)
      (post : List (Field × Json)),
      (∀ p ∈ pre,
        (message.fields.find? (fun g => g.number == p.1.number)).isSome) →
      message.fields.find? (fun g => g.number == f.number) = none →
      rangeFields message (pre ++ (f, v) :: post) =
        .error ("field not found " ++ f.name ++
          " while inspecting message " ++ message.name) := by
  intro pre
  induction pre with
  | nil =>
    intro f v post _ hf
    simp only [List.nil_append, rangeFields, hf]
  | cons p rest ih =>
    intro f v post hpre hf
    obtain ⟨q, w⟩ := p
    have hq := hpre (q, w) (by simp)
    cases hfind : message.fields.find? (fun g => g.number == q.number) with
    | none => rw [hfind] at hq; simp at hq
    | some g =>
      simp only [List.cons_append, rangeFields, hfind, List.append_eq,
        ih f v post (fun x hx => hpre x (by simp [hx])) hf]

/-- Claim C7: if the decoded value's populated fields include a field whose
identifier has no corresponding field descriptor in the target message type
(the first such field in traversal order), resolution fails with an error
naming the offending field and the message type. -/
theorem claimC7_field_mismatch (data : Json) (message : Message)
    (populated pre post : List (Field × Json)) (f : Field) (v : Json)
    (hdec : protojsonUnmarshal data message = .ok populated)
    (hsplit : rangeOrder populated = pre ++ (f, v) :: post)
    (hpre : ∀ p ∈ pre,
      (message.fields.find? (fun g => g.number == p.1.number)).isSome)
    (hf : message.fields.find? (fun g => g.number == f.number) = none) :
    inputOutputToString data message =
      .error ("field not found " ++ f.name ++
        " while inspecting message " ++ message.name) := by
  simp only [inputOutputToString, hdec, hsplit]
  exact rangeFields_error_of_missing message pre f v post hpre hf

/-- A message whose descriptor has a field absent from the protogen field
list, modelling schema/contract drift. -/
def driftMessage : Message :=
  { name := "DriftMessage", goIdent := "DriftMessage",
    descFields := [{ number := 2, name := "ghost", goName := "Ghost",
                     kind := .scalarString }],
    fields := [] }

/-- A case value populating the drifted field. -/
def driftData : Json := .obj [("ghost", .str "boo")]

/-- Witness for claim C7: resolving a value that populates the drifted field
fails naming the field and the message type. -/
theorem claimC7_field_mismatch_witness :
    inputOutputToString driftData driftMessage =
      .error ("field not found " ++ "ghost" ++
        " while inspecting message " ++ "DriftMessage") :=
  claimC7_field_mismatch driftData driftMessage
    [({ number := 2, name := "ghost", goName := "Ghost",
        kind := .scalarString }, .str "boo")]
    [] []
    { number := 2, name := "ghost", goName := "Ghost", kind := .scalarString }
    (.str "boo") rfl rfl (by simp) rfl

/-- The failure-case compiler rejects the first failure case carrying an
error code outside the fixed enumeration, naming the offending code, when
every earlier failure case resolves and carries a valid code. -/
theorem generateFailureCases_first_invalid (method : MethodSchema) :
    ∀ (pre : List FailureCase) (fc : FailureCase) (post : List FailureCase),
      (∀ p ∈ pre,
        (∃ r, getProtoRepresentation p.request method.input = .ok r) ∧
        IsErrorCodeValid p.error.errorCode = true) →
      (∃ r, getProtoRepresentation fc.request method.input = .ok r) →
      IsErrorCodeValid fc.error.errorCode = false →
      generateFailureCases method (pre ++ fc :: post) =
        .error ("invalid error code: " ++ fc.error.errorCode) := by
  intro pre
  induction pre with
  | nil =>
    intro fc post _ hres hbad
    obtain ⟨r, hr⟩ := hres
    simp only [List.nil_append, generateFailureCases, hr, hbad]
    simp
  | cons p rest ih =>
    intro fc post hpre hres hbad
    obtain ⟨⟨r, hr⟩, hvalid⟩ := hpre p (by simp)
    simp only [List.cons_append, generateFailureCases, hr, hvalid, if_true,
      List.append_eq, ih fc post (fun x hx => hpre x (by simp [hx])) hres hbad]

/-- Claim C6: a failure case whose declared error code lies outside the
fixed status-code enumeration (the first offending case of its method) makes
client-case compilation fail with an error naming the offending code, and in
a run reaching that method this first error aborts the entire generation run
with no partial emission: the run's result is the error alone, carrying no
generated units. -/
theorem claimC6_invalid_error_code (method : MethodSchema) (mc : Method)
    (pre : List FailureCase) (fc : FailureCase) (post : List FailureCase)
    (hcases : mc.failureCases = pre ++ fc :: post)
    (hpre : ∀ p ∈ pre,
      (∃ r, getProtoRepresentation p.request method.input = .ok r) ∧
      IsErrorCodeValid p.error.errorCode = true)
    (hres : ∃ r, getProtoRepresentation fc.request method.input = .ok r)
    (hbad : IsErrorCodeValid fc.error.errorCode = false)
    (hsucc : ∃ se, generateSuccessCases method mc.successCases = .ok se) :
    generateClientCases method mc =
      .error ("failed to generate the failure cases: " ++
        ("invalid error code: " ++ fc.error.errorCode)) ∧
    ∀ (path : String) (file : SchemaFile) (contract : Contract)
      (svc : SchemaService),
      path ≠ "" →
      file.generate = true →
      file.services = [svc] →
      svc.methods = [method] →
      lookupService contract.services svc.goName =
        some [(method.goName, mc)] →
      runPlugin path [file] contract =
        .error ("failed to generate the failure cases: " ++
          ("invalid error code: " ++ fc.error.errorCode)) := by
  obtain ⟨se, hse⟩ := hsucc
  have hfail := generateFailureCases_first_invalid method pre fc post hpre hres hbad
  rw [← hcases] at hfail
  have h1 : generateClientCases method mc =
      .error ("failed to generate the failure cases: " ++
        ("invalid error code: " ++ fc.error.errorCode)) := by
    simp only [generateClientCases, hse, hfail]
  refine ⟨h1, ?_⟩
  intro path file contract svc hpath hgen hfs hsm hlook
  have hlm : lookupMethodD [(method.goName, mc)] method.goName = mc := by
    simp [lookupMethodD, lookupMethod, List.find?]
  simp only [runPlugin, if_neg hpath, runFiles, hgen, if_true,
    generateContracts, hfs, genServices, hlook, generateClient, hsm,
    genClientMethods, hlm, h1]

/-- A failure case declaring the unrecognized code `NotARealCode`. -/
def badFailureCase : FailureCase :=
  { description := "bad",
    request := .obj [("requestField", .str "X")],
    error := { errorCode := "NotARealCode", message := "boom" } }

/-- A method contract holding only the bad failure case. -/
def badMethodContract : Method :=
  { successCases := [], failureCases := [badFailureCase] }

/-- A contract wiring the bad method contract to `MyService.MyMethod`. -/
def badContract : Contract :=
  { name := "bad",
    services := [("MyService", [("MyMethod", badMethodContract)])] }

/-- Witness for claim C6: compiling the `NotARealCode` failure case fails
naming the code, and the whole run over the example schema file aborts with
that error and no generated units. -/
theorem claimC6_invalid_error_code_witness :
    generateClientCases myMethod badMethodContract =
      .error ("failed to generate the failure cases: " ++
        "invalid error code: " ++ "NotARealCode") ∧
    runPlugin "contract.json" [exFile] badContract =
      .error ("failed to generate the failure cases: " ++
        "invalid error code: " ++ "NotARealCode") := by
  have h := claimC6_invalid_error_code myMethod badMethodContract []
    badFailureCase [] rfl (by simp)
    ⟨{ typeName := "RequestMessage", fieldArgs := ["RequestField: \x22X\x22"] },
      rfl⟩
    (by decide) ⟨[], rfl⟩
  exact ⟨h.1, h.2 "contract.json" exFile badContract myService (by decide)
    rfl rfl rfl rfl⟩

/-- Claim C10: when the required `contract-file` option is absent (the flag
keeps its empty default value), the run fails at startup with an error
reporting the missing option, before any file is processed: no unit is ever
part of the result. -/
theorem claimC10_missing_option (files : List SchemaFile)
    (contract : Contract) :
    runPlugin (contractFileValue none) files contract =
      .error ("\x27contract-file\x27 option not provided") ∧
    ∀ us, runPlugin (contractFileValue none) files contract ≠ .ok us :=
  ⟨rfl, fun _ h => Except.noConfusion h⟩

end Deal
